import Mathlib

/-
Shallow embedding of the Conway's Game of Life engine from the repository
rust-wasm-conways-game.

The repository contains two near-duplicate variants of the engine:
  * src/rust-wasm/src/lib.rs : struct Universe with a double buffer
    (fields width, height, cells, next_cells); tick writes into next_cells
    and swaps; live_neighbor_count uses explicit branch arithmetic for the
    toroidal wraparound.
  * src/src/lib.rs : struct Universe without the second buffer; tick clones
    the cell buffer and writes into the clone; live_neighbor_count uses
    (coordinate + delta) % dimension with deltas {dim-1, 0, 1}.

Cell storage is fixedbitset::FixedBitSet in both variants, modelled here as
List Bool together with its length.  Relevant FixedBitSet semantics:
  * Index (reading via cells[i]) returns false for an out-of-range bit;
  * set and toggle panic when the bit is out of bounds (modelled as Option);
  * grow keeps existing bits and initialises new bits to zero, and is a
    no-op when the requested size does not exceed the current length;
  * with_capacity yields an all-zero set; clear zeroes all bits in place.

Rust u32 arithmetic wraps modulo 2^32 (release profile semantics); every
spot where the source computes in u32 and casts with `as usize` (a 32-bit
type on wasm32) is modelled with an explicit % 4294967296.
-/

/-- Size of the u32 value space; Rust u32 arithmetic wraps modulo this. -/
def u32Size : Nat := 4294967296

/-- FixedBitSet read via the Index impl: false for an out-of-range bit. -/
def fbsGet (l : List Bool) (i : Nat) : Bool :=
  l.getD i false

/-- FixedBitSet.set, which panics when the bit is out of bounds. -/
def fbsSet (l : List Bool) (i : Nat) (b : Bool) : Option (List Bool) :=
  if i < l.length then some (l.set i b) else none

/-- FixedBitSet.toggle, which panics when the bit is out of bounds. -/
def fbsToggle (l : List Bool) (i : Nat) : Option (List Bool) :=
  if i < l.length then some (l.set i (!(l.getD i false))) else none

/-- FixedBitSet.grow: existing bits kept, new bits zero, no-op when not growing. -/
def fbsGrow (l : List Bool) (n : Nat) : List Bool :=
  l ++ List.replicate (n - l.length) false

/-- FixedBitSet.clear: every bit zeroed, length unchanged. -/
def fbsClear (l : List Bool) : List Bool :=
  List.replicate l.length false

/-- Universe::get_index, identical text in both variants:
`(row * self.width + column) as usize` computed in u32. -/
def rustGetIndex (w row col : Nat) : Nat :=
  (row * w % u32Size + col) % u32Size

/-- The match expression of Universe::tick, identical in both variants:
(true, x) if x < 2 => false; (true, 2) | (true, 3) => true;
(true, x) if x > 3 => false; (false, 3) => true; (otherwise, _) => otherwise. -/
def tickRule (cell : Bool) (n : Nat) : Bool :=
  if cell = true ∧ n < 2 then false
  else if cell = true ∧ (n = 2 ∨ n = 3) then true
  else if cell = true ∧ n > 3 then false
  else if cell = false ∧ n = 3 then true
  else cell

/-- The Universe struct of src/rust-wasm/src/lib.rs. -/
structure Universe where
  width : Nat
  height : Nat
  cells : List Bool
  next_cells : List Bool
deriving DecidableEq

/-- Universe::new of src/rust-wasm/src/lib.rs: fixed 128 by 128 extent, both
buffers allocated all-dead at capacity 128*128 (the constructor's for loop
writes false over storage that with_capacity already zeroed).  It takes no
size parameters and has no failure path. -/
def Universe.new : Universe :=
  { width := 128
    height := 128
    cells := List.replicate (128 * 128) false
    next_cells := List.replicate (128 * 128) false }

/-- Universe::clear of src/rust-wasm/src/lib.rs: self.cells.clear(). -/
def Universe.clear (u : Universe) : Universe :=
  { u with cells := fbsClear u.cells }

/-- Universe::update_cells_size of src/rust-wasm/src/lib.rs: recompute
size = (width * height) as usize; if cells.len() > size reallocate fresh
all-dead storage, else grow cells in place.  next_cells is not touched. -/
def Universe.update_cells_size (u : Universe) : Universe :=
  let size := u.width * u.height % u32Size
  if u.cells.length > size then
    { u with cells := List.replicate size false }
  else
    { u with cells := fbsGrow u.cells size }

/-- Universe::set_width of src/rust-wasm/src/lib.rs. -/
def Universe.set_width (u : Universe) (w : Nat) : Universe :=
  if u.width = w then u
  else Universe.update_cells_size { u with width := w }

/-- Universe::set_height of src/rust-wasm/src/lib.rs. -/
def Universe.set_height (u : Universe) (h : Nat) : Universe :=
  if u.height = h then u
  else Universe.update_cells_size { u with height := h }

/-- Universe::toggle_cell of src/rust-wasm/src/lib.rs:
self.cells.toggle(self.get_index(row, col)). -/
def Universe.toggle_cell (u : Universe) (row col : Nat) : Option Universe :=
  match fbsToggle u.cells (rustGetIndex u.width row col) with
  | none => none
  | some c => some { u with cells := c }

/-- Fallible write of f i at each index of the list in order; used to model
the write loops of tick and set_alive_cells, whose FixedBitSet::set calls
panic on an out-of-bounds index. -/
def writeAll (f : Nat → Bool) : List Bool → List Nat → Option (List Bool)
  | next, [] => some next
  | next, i :: rest =>
    match fbsSet next i (f i) with
    | none => none
    | some next2 => writeAll f next2 rest

/-- Universe::live_neighbor_count of src/rust-wasm/src/lib.rs: branch-based
toroidal wraparound; the eight neighbour bits are read through get_index and
summed (the u8 accumulator never exceeds 8, so Nat is faithful). -/
def Universe.live_neighbor_count (u : Universe) (row col : Nat) : Nat :=
  let north := if row = 0 then u.height - 1 else row - 1
  let south := if row = u.height - 1 then 0 else row + 1
  let west := if col = 0 then u.width - 1 else col - 1
  let east := if col = u.width - 1 then 0 else col + 1
  (if fbsGet u.cells (rustGetIndex u.width north west) then 1 else 0) +
  (if fbsGet u.cells (rustGetIndex u.width north col) then 1 else 0) +
  (if fbsGet u.cells (rustGetIndex u.width north east) then 1 else 0) +
  (if fbsGet u.cells (rustGetIndex u.width row west) then 1 else 0) +
  (if fbsGet u.cells (rustGetIndex u.width row east) then 1 else 0) +
  (if fbsGet u.cells (rustGetIndex u.width south west) then 1 else 0) +
  (if fbsGet u.cells (rustGetIndex u.width south col) then 1 else 0) +
  (if fbsGet u.cells (rustGetIndex u.width south east) then 1 else 0)

/-- The per-index value written by Universe::tick of src/rust-wasm/src/lib.rs:
row = (i as u32) / width, col = (i as u32) % width, cell = cells[i],
then the Game of Life match on (cell, live_neighbor_count(row, col)). -/
def Universe.tickCell (u : Universe) (i : Nat) : Bool :=
  tickRule (fbsGet u.cells i)
    (Universe.live_neighbor_count u (i / u.width) (i % u.width))

/-- Universe::tick of src/rust-wasm/src/lib.rs: for i in 0..size write the
transition of cell i into next_cells (panicking if next_cells is too short),
then mem::swap the two buffers. -/
def Universe.tick (u : Universe) : Option Universe :=
  match writeAll (Universe.tickCell u) u.next_cells
      (List.range (u.width * u.height % u32Size)) with
  | none => none
  | some nc => some { u with cells := nc, next_cells := u.cells }

/-- Fallible loop of set_alive_cells over a coordinate list: each (row, col)
is mapped through get_index and the bit is set to true. -/
def setAliveList (w : Nat) : List Bool → List (Nat × Nat) → Option (List Bool)
  | cells, [] => some cells
  | cells, (row, col) :: rest =>
    match fbsSet cells (rustGetIndex w row col) true with
    | none => none
    | some cells2 => setAliveList w cells2 rest

/-- Universe::set_alive_cells of src/rust-wasm/src/lib.rs. -/
def Universe.set_alive_cells (u : Universe) (l : List (Nat × Nat)) :
    Option Universe :=
  match setAliveList u.width u.cells l with
  | none => none
  | some c => some { u with cells := c }

/-- The Universe struct of src/src/lib.rs (no second buffer). -/
structure SrcUniverse where
  width : Nat
  height : Nat
  cells : List Bool
deriving DecidableEq

/-- Universe::live_neighbor_count of src/src/lib.rs: deltas iterate over
[height - 1, 0, 1] and [width - 1, 0, 1], the (0, 0) pair is skipped, and
the neighbour coordinate is (coordinate + delta) % dimension in u32. -/
def SrcUniverse.live_neighbor_count (u : SrcUniverse) (row col : Nat) : Nat :=
  List.sum (List.map (fun dr =>
    List.sum (List.map (fun dc =>
      if dr = 0 ∧ dc = 0 then 0
      else
        let nrow := (row + dr) % u32Size % u.height
        let ncol := (col + dc) % u32Size % u.width
        if fbsGet u.cells (rustGetIndex u.width nrow ncol) then 1 else 0)
      [u.width - 1, 0, 1]))
    [u.height - 1, 0, 1])

/-- Universe::tick of src/src/lib.rs: clone the buffer, then for each row and
column write the transition at get_index(row, col) into the clone
(FixedBitSet::set panics when that index is out of bounds), finally replace
cells with the clone. -/
def SrcUniverse.tick (u : SrcUniverse) : Option SrcUniverse :=
  let pairs :=
    (List.range u.height).flatMap fun r => (List.range u.width).map fun c => (r, c)
  let step := fun (next : Option (List Bool)) (p : Nat × Nat) =>
    match next with
    | none => none
    | some next =>
      fbsSet next (rustGetIndex u.width p.1 p.2)
        (tickRule (fbsGet u.cells (rustGetIndex u.width p.1 p.2))
          (SrcUniverse.live_neighbor_count u p.1 p.2))
  match pairs.foldl step (some u.cells) with
  | none => none
  | some nc => some { u with cells := nc }

/-- Universe::set_alive_cells of src/src/lib.rs (same text as the rust-wasm
variant). -/
def SrcUniverse.set_alive_cells (u : SrcUniverse) (l : List (Nat × Nat)) :
    Option SrcUniverse :=
  match setAliveList u.width u.cells l with
  | none => none
  | some c => some { u with cells := c }

/-
Spec-side definitions, written from the specification's wording so that the
source-derived functions above can be compared against them.
-/

/-- Modelled from the spec: the eight offset directions
(dr, dc) in {-1,0,1} x {-1,0,1} minus (0,0), in row-major order. -/
def specOffsets : List (Int × Int) :=
  [(-1, -1), (-1, 0), (-1, 1), (0, -1), (0, 1), (1, -1), (1, 0), (1, 1)]

/-- Modelled from the spec: the linear index of the toroidal neighbour of
(row, col) in direction (dr, dc), namely
((row + dr + height) mod height) * width + ((col + dc + width) mod width). -/
def specNeighborIdx (w h row col : Nat) (d : Int × Int) : Nat :=
  (((row : Int) + d.1 + h) % h).toNat * w + (((col : Int) + d.2 + w) % w).toNat

/-- Modelled from the spec: the toroidal eight-neighbour live count of
(row, col). -/
def specCount (w h : Nat) (cells : List Bool) (row col : Nat) : Nat :=
  (specOffsets.map (fun d =>
    if fbsGet cells (specNeighborIdx w h row col d) then 1 else 0)).sum

/-- Modelled from the spec: the four-rule Game of Life transition --- alive
with fewer than 2 live neighbours becomes dead; alive with 2 or 3 stays
alive; alive with more than 3 becomes dead; dead with exactly 3 becomes
alive; everything else unchanged. -/
def specRule (alive : Bool) (n : Nat) : Bool :=
  if alive then
    if n < 2 then false
    else if n = 2 ∨ n = 3 then true
    else false
  else
    if n = 3 then true else alive

theorem fbsSet_some (l : List Bool) (i : Nat) (b : Bool) (h : i < l.length) :
    fbsSet l i b = some (l.set i b) := by
  simp [fbsSet, h]

theorem fbsGet_set_self (l : List Bool) (i : Nat) (b : Bool) (h : i < l.length) :
    fbsGet (l.set i b) i = b := by
  simp [fbsGet, List.getD_eq_getElem?_getD, List.getElem?_set_eq_of_lt _ h]

theorem fbsGet_set_ne (l : List Bool) (i j : Nat) (b : Bool) (h : i ≠ j) :
    fbsGet (l.set i b) j = fbsGet l j := by
  simp [fbsGet, List.getD_eq_getElem?_getD, List.getElem?_set_ne h]

theorem update_cells_size_next (u : Universe) :
    (Universe.update_cells_size u).next_cells = u.next_cells := by
  unfold Universe.update_cells_size
  dsimp only
  split <;> rfl

theorem update_cells_size_dims (u : Universe) :
    (Universe.update_cells_size u).width = u.width ∧
      (Universe.update_cells_size u).height = u.height := by
  unfold Universe.update_cells_size
  dsimp only
  split <;> exact ⟨rfl, rfl⟩

theorem update_cells_size_length (u : Universe) :
    (Universe.update_cells_size u).cells.length = u.width * u.height % u32Size := by
  unfold Universe.update_cells_size
  dsimp only
  split
  · simp
  · simp only [fbsGrow, List.length_append, List.length_replicate]
    omega

theorem set_width_parts (u : Universe) (w : Nat) (h : u.width ≠ w) :
    (Universe.set_width u w).width = w ∧
      (Universe.set_width u w).height = u.height ∧
      (Universe.set_width u w).cells.length = w * u.height % u32Size ∧
      (Universe.set_width u w).next_cells = u.next_cells := by
  unfold Universe.set_width
  rw [if_neg h]
  refine ⟨?_, ?_, ?_, ?_⟩
  · exact (update_cells_size_dims _).1
  · exact (update_cells_size_dims _).2
  · exact update_cells_size_length _
  · exact update_cells_size_next _

theorem set_height_parts (u : Universe) (hh : Nat) (h : u.height ≠ hh) :
    (Universe.set_height u hh).width = u.width ∧
      (Universe.set_height u hh).height = hh ∧
      (Universe.set_height u hh).cells.length = u.width * hh % u32Size ∧
      (Universe.set_height u hh).next_cells = u.next_cells := by
  unfold Universe.set_height
  rw [if_neg h]
  refine ⟨?_, ?_, ?_, ?_⟩
  · exact (update_cells_size_dims _).1
  · exact (update_cells_size_dims _).2
  · exact update_cells_size_length _
  · exact update_cells_size_next _


theorem writeAll_total (f : Nat → Bool) (l : List Nat) (next : List Bool)
    (hall : ∀ j ∈ l, j < next.length) :
    ∃ r, writeAll f next l = some r ∧ r.length = next.length ∧
      ∀ j, fbsGet r j = if j ∈ l then f j else fbsGet next j := by
  induction l generalizing next with
  | nil => exact ⟨next, rfl, rfl, fun j => by simp⟩
  | cons i rest ih =>
    have hi : i < next.length := hall i (by simp)
    have hrest : ∀ j ∈ rest, j < (next.set i (f i)).length := by
      simp only [List.length_set]
      exact fun j hj => hall j (by simp [hj])
    obtain ⟨r, hr, hlen, hget⟩ := ih (next.set i (f i)) hrest
    refine ⟨r, ?_, ?_, ?_⟩
    · simp only [writeAll, fbsSet_some _ _ _ hi]
      exact hr
    · rw [hlen, List.length_set]
    · intro j
      rw [hget j]
      by_cases hjr : j ∈ rest
      · simp [hjr]
      · by_cases hji : j = i
        · subst hji
          simp [hjr, fbsGet_set_self _ _ _ hi]
        · simp [hjr, hji, fbsGet_set_ne _ _ _ _ (Ne.symm hji)]

theorem writeAll_oob (f : Nat → Bool) (l : List Nat) (next : List Bool)
    (hj : ∃ j ∈ l, next.length ≤ j) : writeAll f next l = none := by
  induction l generalizing next with
  | nil => simp at hj
  | cons i rest ih =>
    obtain ⟨j, hjl, hje⟩ := hj
    by_cases hi : i < next.length
    · simp only [writeAll, fbsSet_some _ _ _ hi]
      apply ih
      rcases List.mem_cons.mp hjl with h | h
      · exact absurd hje (by omega)
      · exact ⟨j, h, by simpa [List.length_set] using hje⟩
    · simp [writeAll, fbsSet, hi]

theorem emod_dec (n r : Nat) (hn : 0 < n) (hr : r < n) :
    (((r : Int) + (-1) + n) % n).toNat = if r = 0 then n - 1 else r - 1 := by
  by_cases h0 : r = 0
  · subst h0
    rw [if_pos rfl, show ((0 : Nat) : Int) + (-1) + n = n - 1 by push_cast; ring,
      Int.emod_eq_of_lt (by omega) (by omega)]
    omega
  · rw [if_neg h0, show ((r : Nat) : Int) + (-1) + n = ((r : Int) - 1) + n * 1 by ring,
      Int.add_mul_emod_self_left, Int.emod_eq_of_lt (by omega) (by omega)]
    omega

theorem emod_inc (n r : Nat) (hn : 0 < n) (hr : r < n) :
    (((r : Int) + 1 + n) % n).toNat = if r = n - 1 then 0 else r + 1 := by
  rw [show ((r : Nat) : Int) + 1 + n = ((r : Int) + 1) + n * 1 by ring, Int.add_mul_emod_self_left]
  by_cases h0 : r = n - 1
  · rw [if_pos h0, show ((r : Nat) : Int) + 1 = n by omega, Int.emod_self]
    rfl
  · rw [if_neg h0, Int.emod_eq_of_lt (by omega) (by omega)]
    omega

theorem emod_keep (n r : Nat) (hn : 0 < n) (hr : r < n) :
    (((r : Int) + 0 + n) % n).toNat = r := by
  rw [show ((r : Nat) : Int) + 0 + n = (r : Int) + n * 1 by ring, Int.add_mul_emod_self_left,
    Int.emod_eq_of_lt (by omega) (by omega)]
  omega

theorem rustGetIndex_eq (w h a b : Nat) (ha : a < h) (hb : b < w)
    (hlt : w * h < u32Size) : rustGetIndex w a b = a * w + b := by
  unfold rustGetIndex
  have h1 : a * w + b < w * h := by
    calc a * w + b < a * w + w := by omega
    _ = (a + 1) * w := by ring
    _ ≤ h * w := Nat.mul_le_mul_right w (by omega)
    _ = w * h := Nat.mul_comm h w
  have h2 : a * w < u32Size := by omega
  rw [Nat.mod_eq_of_lt h2, Nat.mod_eq_of_lt (by omega)]

theorem live_neighbor_count_eq_specCount (u : Universe) (row col : Nat)
    (hw : 0 < u.width) (hh : 0 < u.height)
    (hrow : row < u.height) (hcol : col < u.width)
    (hlt : u.width * u.height < u32Size) :
    Universe.live_neighbor_count u row col =
      specCount u.width u.height u.cells row col := by
  have hND := emod_dec u.height row hh hrow
  have hNI := emod_inc u.height row hh hrow
  have hNK := emod_keep u.height row hh hrow
  have hWD := emod_dec u.width col hw hcol
  have hWI := emod_inc u.width col hw hcol
  have hWK := emod_keep u.width col hw hcol
  have hnorth : (if row = 0 then u.height - 1 else row - 1) < u.height := by
    split <;> omega
  have hsouth : (if row = u.height - 1 then 0 else row + 1) < u.height := by
    split <;> omega
  have hwest : (if col = 0 then u.width - 1 else col - 1) < u.width := by
    split <;> omega
  have heast : (if col = u.width - 1 then 0 else col + 1) < u.width := by
    split <;> omega
  unfold Universe.live_neighbor_count
  unfold specCount specOffsets specNeighborIdx
  simp only [List.map_cons, List.map_nil, List.sum_cons, List.sum_nil]
  dsimp only
  rw [rustGetIndex_eq _ _ _ _ hnorth hwest hlt,
    rustGetIndex_eq _ _ _ _ hnorth hcol hlt,
    rustGetIndex_eq _ _ _ _ hnorth heast hlt,
    rustGetIndex_eq _ _ _ _ hrow hwest hlt,
    rustGetIndex_eq _ _ _ _ hrow heast hlt,
    rustGetIndex_eq _ _ _ _ hsouth hwest hlt,
    rustGetIndex_eq _ _ _ _ hsouth hcol hlt,
    rustGetIndex_eq _ _ _ _ hsouth heast hlt,
    hND, hNI, hNK, hWD, hWI, hWK]
  ring

theorem tickRule_eq_specRule (c : Bool) (n : Nat) : tickRule c n = specRule c n := by
  cases c <;> unfold tickRule specRule <;> split_ifs <;> simp_all <;> omega


theorem fbs_ext (l1 l2 : List Bool) (hlen : l1.length = l2.length)
    (h : ∀ j, fbsGet l1 j = fbsGet l2 j) : l1 = l2 := by
  apply List.ext_getElem hlen
  intro n h1 h2
  have hn := h n
  simpa [fbsGet, List.getD_eq_getElem?_getD, List.getElem?_eq_getElem, h1, h2]
    using hn

theorem setAliveList_total (w : Nat) (l : List (Nat × Nat)) (cells : List Bool)
    (hall : ∀ p ∈ l, rustGetIndex w p.1 p.2 < cells.length) :
    ∃ r, setAliveList w cells l = some r ∧ r.length = cells.length ∧
      ∀ j, fbsGet r j = true ↔
        (fbsGet cells j = true ∨ ∃ p ∈ l, rustGetIndex w p.1 p.2 = j) := by
  induction l generalizing cells with
  | nil => exact ⟨cells, rfl, rfl, fun j => by simp⟩
  | cons q rest ih =>
    obtain ⟨row, col⟩ := q
    have hq : rustGetIndex w row col < cells.length :=
      hall (row, col) (List.mem_cons_self _ _)
    have hrest : ∀ p ∈ rest, rustGetIndex w p.1 p.2 <
        (cells.set (rustGetIndex w row col) true).length := by
      simp only [List.length_set]
      exact fun p hp => hall p (by simp [hp])
    obtain ⟨r, hr, hlen, hget⟩ := ih _ hrest
    refine ⟨r, ?_, ?_, ?_⟩
    · simp only [setAliveList, fbsSet_some _ _ _ hq]
      exact hr
    · rw [hlen, List.length_set]
    · intro j
      rw [hget j]
      by_cases hji : j = rustGetIndex w row col
      · subst hji
        simp [fbsGet_set_self _ _ _ hq]
      · rw [fbsGet_set_ne _ _ _ _ (Ne.symm hji)]
        constructor
        · rintro (h | ⟨p, hp, hpe⟩)
          · exact Or.inl h
          · exact Or.inr ⟨p, by simp [hp], hpe⟩
        · rintro (h | ⟨p, hp, hpe⟩)
          · exact Or.inl h
          · rcases List.mem_cons.mp hp with he | he
            · subst he
              exact absurd hpe (by simpa using Ne.symm hji)
            · exact Or.inr ⟨p, he, hpe⟩

theorem setAliveList_fixed (w : Nat) (l : List (Nat × Nat)) (r : List Bool)
    (hall : ∀ p ∈ l, rustGetIndex w p.1 p.2 < r.length)
    (hset : ∀ p ∈ l, fbsGet r (rustGetIndex w p.1 p.2) = true) :
    setAliveList w r l = some r := by
  induction l with
  | nil => rfl
  | cons q rest ih =>
    obtain ⟨row, col⟩ := q
    have hq := hall (row, col) (List.mem_cons_self _ _)
    have hs := hset (row, col) (List.mem_cons_self _ _)
    have hfix : r.set (rustGetIndex w row col) true = r := by
      apply fbs_ext _ _ (List.length_set _ _ _)
      intro j
      by_cases hji : j = rustGetIndex w row col
      · subst hji
        rw [fbsGet_set_self _ _ _ hq, hs]
      · exact fbsGet_set_ne _ _ _ _ (Ne.symm hji)
    simp only [setAliveList, fbsSet_some _ _ _ hq, hfix]
    exact ih (fun p hp => hall p (by simp [hp])) (fun p hp => hset p (by simp [hp]))


theorem fbsGet_oob (l : List Bool) (j : Nat) (h : l.length ≤ j) :
    fbsGet l j = false := by
  simp [fbsGet, List.getD_eq_getElem?_getD, List.getElem?_eq_none h]

theorem fbsGet_replicate_false (n i : Nat) :
    fbsGet (List.replicate n false) i = false := by
  rcases Nat.lt_or_ge i n with h | h
  · have hlen : i < (List.replicate n false).length := by simpa using h
    unfold fbsGet
    rw [List.getD_eq_getElem?_getD, List.getElem?_eq_getElem hlen]
    simp [List.getElem_replicate]
  · exact fbsGet_oob _ _ (by simpa using h)

theorem lnc_dead (u : Universe) (hdead : ∀ i, fbsGet u.cells i = false)
    (row col : Nat) : Universe.live_neighbor_count u row col = 0 := by
  simp [Universe.live_neighbor_count, hdead]

theorem tick_dead (u : Universe)
    (hn : u.next_cells.length = u.width * u.height)
    (hrep : u.width * u.height < u32Size)
    (hdead : ∀ i, fbsGet u.cells i = false) :
    ∃ v, Universe.tick u = some v ∧ ∀ i, fbsGet v.cells i = false := by
  have hmod := Nat.mod_eq_of_lt hrep
  have hall : ∀ j ∈ List.range (u.width * u.height % u32Size),
      j < u.next_cells.length := by
    intro j hj
    rw [List.mem_range] at hj
    rw [hn]
    omega
  obtain ⟨r, hr, hlen, hget⟩ := writeAll_total (Universe.tickCell u) _ _ hall
  refine ⟨{ u with cells := r, next_cells := u.cells }, ?_, ?_⟩
  · unfold Universe.tick
    rw [hr]
  · intro i
    show fbsGet r i = false
    rw [hget i]
    split
    · show Universe.tickCell u i = false
      unfold Universe.tickCell
      rw [hdead i, lnc_dead u hdead]
      rfl
    · rename_i hnot
      rw [List.mem_range] at hnot
      exact fbsGet_oob _ _ (by omega)


theorem update_cells_size_cells (u : Universe) :
    (Universe.update_cells_size u).cells =
      if u.cells.length > u.width * u.height % u32Size then
        List.replicate (u.width * u.height % u32Size) false
      else
        u.cells ++
          List.replicate (u.width * u.height % u32Size - u.cells.length) false := by
  unfold Universe.update_cells_size
  dsimp only
  split
  · rfl
  · simp [fbsGrow]


/-- C1: on a grid with positive dimensions whose cells and next_cells buffers
both have length width*height (a cell count representable in u32), one call
to tick succeeds and the cell at every linear index i equals the four-rule
Game of Life transition applied to the pre-tick liveness at i and the
pre-tick toroidal eight-neighbour live count of i; the right-hand side reads
only the pre-tick cells buffer, so every transition is computed from
pre-step state, never from values written during the same scan. -/
theorem c1_tick_computes_life_transition (u : Universe)
    (hw : 1 ≤ u.width) (hh : 1 ≤ u.height)
    (hc : u.cells.length = u.width * u.height)
    (hn : u.next_cells.length = u.width * u.height)
    (hrep : u.width * u.height < u32Size) :
    ∃ v, Universe.tick u = some v ∧
      ∀ i < u.width * u.height,
        fbsGet v.cells i =
          specRule (fbsGet u.cells i)
            (specCount u.width u.height u.cells (i / u.width) (i % u.width)) := by
  have hall : ∀ j ∈ List.range (u.width * u.height % u32Size),
      j < u.next_cells.length := by
    intro j hj
    rw [List.mem_range] at hj
    rw [hn]
    exact lt_of_lt_of_le hj (Nat.mod_le _ _)
  obtain ⟨r, hr, hlen, hget⟩ := writeAll_total (Universe.tickCell u) _ _ hall
  refine ⟨{ u with cells := r, next_cells := u.cells }, ?_, ?_⟩
  · unfold Universe.tick
    rw [hr]
  · intro i hi
    show fbsGet r i = _
    have hmod := Nat.mod_eq_of_lt hrep
    rw [hget i, if_pos (by rw [List.mem_range, hmod]; exact hi)]
    unfold Universe.tickCell
    have hdiv : i / u.width < u.height :=
      Nat.div_lt_iff_lt_mul (by omega) |>.mpr
        (by rw [Nat.mul_comm u.height u.width]; exact hi)
    rw [tickRule_eq_specRule,
      live_neighbor_count_eq_specCount u _ _ (by omega) (by omega) hdiv
        (Nat.mod_lt _ (by omega)) hrep]

/-- C1 witness: the theorem instantiated on the 1 by 1 all-dead grid. -/
theorem c1_witness :
    (1 ≤ (1 : Nat)) ∧ ([false].length = 1 * 1) ∧ (1 * 1 < u32Size) ∧
    (∃ v, Universe.tick ⟨1, 1, [false], [false]⟩ = some v ∧
      ∀ i < 1 * 1,
        fbsGet v.cells i =
          specRule (fbsGet [false] i) (specCount 1 1 [false] (i / 1) (i % 1))) :=
  ⟨by decide, by decide, by decide,
    c1_tick_computes_life_transition ⟨1, 1, [false], [false]⟩
      (by decide) (by decide) (by decide) (by decide) (by decide)⟩

/-- C2: for every grid with width, height at least 1 and every in-range
coordinate, live_neighbor_count(row, col) equals the sum over the 8 offset
directions of the liveness at
((row + dr + height) mod height) * width + ((col + dc + width) mod width);
in particular, for width, height at least 2 a live cell at
(height-1, width-1) is counted as a neighbour of the cell at (0, 0). -/
theorem c2_live_neighbor_count_toroidal (u : Universe) (row col : Nat)
    (hw : 1 ≤ u.width) (hh : 1 ≤ u.height)
    (hrow : row < u.height) (hcol : col < u.width)
    (hrep : u.width * u.height < u32Size) :
    Universe.live_neighbor_count u row col =
      specCount u.width u.height u.cells row col ∧
    (2 ≤ u.width → 2 ≤ u.height →
      fbsGet u.cells ((u.height - 1) * u.width + (u.width - 1)) = true →
      1 ≤ Universe.live_neighbor_count u 0 0) := by
  constructor
  · exact live_neighbor_count_eq_specCount u row col (by omega) (by omega)
      hrow hcol hrep
  · intro hw2 hh2 hcell
    unfold Universe.live_neighbor_count
    dsimp only
    have hsne : ¬((0 : Nat) = u.height - 1) := by omega
    have hene : ¬((0 : Nat) = u.width - 1) := by omega
    rw [if_pos rfl, if_pos rfl, if_neg hsne, if_neg hene,
      rustGetIndex_eq u.width u.height (u.height - 1) (u.width - 1)
        (by omega) (by omega) hrep,
      hcell]
    have htriv : ∀ a b c d e f g : Nat,
        1 ≤ 1 + a + b + c + d + e + f + g := by
      intro a b c d e f g
      omega
    simpa using htriv _ _ _ _ _ _ _

/-- C2 witness: the theorem instantiated at (0, 0) on a 2 by 2 grid whose
only live cell sits at (height-1, width-1). -/
theorem c2_witness :
    (1 ≤ (2 : Nat)) ∧ ((0 : Nat) < 2) ∧ (2 * 2 < u32Size) ∧
    (Universe.live_neighbor_count ⟨2, 2, [false, false, false, true], []⟩ 0 0 =
      specCount 2 2 [false, false, false, true] 0 0 ∧
    (2 ≤ (2 : Nat) → 2 ≤ (2 : Nat) →
      fbsGet [false, false, false, true] ((2 - 1) * 2 + (2 - 1)) = true →
      1 ≤ Universe.live_neighbor_count ⟨2, 2, [false, false, false, true], []⟩ 0 0)) :=
  ⟨by decide, by decide, by decide,
    c2_live_neighbor_count_toroidal ⟨2, 2, [false, false, false, true], []⟩ 0 0
      (by decide) (by decide) (by decide) (by decide) (by decide)⟩

/-- C3: on a 6 by 6 grid that is all dead except alive exactly at
{(1,2),(2,3),(3,1),(3,2),(3,3)}, one call to tick yields the grid whose
live set is exactly {(2,1),(2,3),(3,2),(3,3),(4,2)} (stated on the
src/src/lib.rs variant, the one exercised by the repository test). -/
theorem c3_glider_one_tick :
    ((SrcUniverse.set_alive_cells ⟨6, 6, List.replicate 36 false⟩
        [(1, 2), (2, 3), (3, 1), (3, 2), (3, 3)]).bind SrcUniverse.tick =
      SrcUniverse.set_alive_cells ⟨6, 6, List.replicate 36 false⟩
        [(2, 1), (2, 3), (3, 2), (3, 3), (4, 2)]) ∧
    (SrcUniverse.set_alive_cells ⟨6, 6, List.replicate 36 false⟩
        [(2, 1), (2, 3), (3, 2), (3, 3), (4, 2)]).isSome = true := by
  decide

/-- C4 evidence: after Universe::new() (128 by 128) followed by
set_width(129), the cells buffer has the required 129*128 = 16512 entries
but next_cells still has its construction length 16384, so the claimed
invariant cells.length = next_cells.length = width*height is broken by a
single public resize: update_cells_size never touches next_cells, although
its own doc comment and the set_width doc comment say it resizes both. -/
theorem c4_resize_leaves_next_cells_stale :
    (Universe.set_width Universe.new 129).next_cells.length = 16384 ∧
    (Universe.set_width Universe.new 129).cells.length = 16512 ∧
    (Universe.set_width Universe.new 129).width *
      (Universe.set_width Universe.new 129).height = 16512 := by
  have h := set_width_parts Universe.new 129 (by decide)
  have hnh : Universe.new.height = 128 := rfl
  refine ⟨?_, ?_, ?_⟩
  · rw [h.2.2.2]
    show (List.replicate (128 * 128) false).length = 16384
    rw [List.length_replicate]
  · rw [h.2.2.1, hnh]
    norm_num [u32Size]
  · rw [h.1, h.2.1, hnh]

/-- C5: whenever width*height (representable in u32) exceeds the length of
the next_cells buffer, tick fails (FixedBitSet::set panics at the first
out-of-bounds index of next_cells) instead of completing; the witness below
reaches such a state through the public interface by growing the grid with
set_width after construction. -/
theorem c5_tick_fails_when_next_cells_short (u : Universe)
    (hrep : u.width * u.height < u32Size)
    (hshort : u.next_cells.length < u.width * u.height) :
    Universe.tick u = none := by
  have hmod := Nat.mod_eq_of_lt hrep
  unfold Universe.tick
  rw [writeAll_oob _ _ _
    ⟨u.next_cells.length, by rw [List.mem_range]; omega, Nat.le_refl _⟩]

/-- C5 witness: the state Universe::new() followed by set_width(129) has
16512 cells but a 16384-entry next_cells, and tick on it fails. -/
theorem c5_witness :
    (Universe.set_width Universe.new 129).width *
        (Universe.set_width Universe.new 129).height < u32Size ∧
    (Universe.set_width Universe.new 129).next_cells.length <
      (Universe.set_width Universe.new 129).width *
        (Universe.set_width Universe.new 129).height ∧
    Universe.tick (Universe.set_width Universe.new 129) = none := by
  have h := set_width_parts Universe.new 129 (by decide)
  have hnh : Universe.new.height = 128 := rfl
  have hnl : (Universe.set_width Universe.new 129).next_cells.length = 16384 := by
    rw [h.2.2.2]
    show (List.replicate (128 * 128) false).length = 16384
    rw [List.length_replicate]
  have h1 : (Universe.set_width Universe.new 129).width *
      (Universe.set_width Universe.new 129).height < u32Size := by
    rw [h.1, h.2.1, hnh]
    norm_num [u32Size]
  have h2 : (Universe.set_width Universe.new 129).next_cells.length <
      (Universe.set_width Universe.new 129).width *
        (Universe.set_width Universe.new 129).height := by
    rw [hnl, h.1, h.2.1, hnh]
    norm_num
  exact ⟨h1, h2, c5_tick_fails_when_next_cells_short _ h1 h2⟩

/-- C6 counterexample: on the 2 by 1 grid with live cell at index 0, the
growth resize set_width(3) keeps that cell alive, contradicting the claim
that every cell of the resized grid is dead and that on growth no
previously live cell remains live. -/
theorem c6_counterexample :
    (⟨2, 1, [true, false], [true, false]⟩ : Universe).width ≠ 3 ∧
    fbsGet (Universe.set_width ⟨2, 1, [true, false], [true, false]⟩ 3).cells 0 =
      true := by
  decide

/-- C6 amended: for w different from the current width (symmetrically for a
new height), set_width(w) recomputes size = w*height in wrapping u32
arithmetic; when the current buffer is strictly longer than size the
storage is replaced by fresh all-dead storage of length size, otherwise the
buffer grows in place, preserving every previously live cell and leaving
the new slots dead.  The live/dead assignment is reset only on the shrink
path. -/
theorem c6_resize_discards_only_on_shrink (u : Universe) (w hh : Nat)
    (hwne : u.width ≠ w) (hhne : u.height ≠ hh) :
    ((u.cells.length > w * u.height % u32Size →
        (Universe.set_width u w).cells =
          List.replicate (w * u.height % u32Size) false) ∧
      (u.cells.length ≤ w * u.height % u32Size →
        (Universe.set_width u w).cells =
          u.cells ++
            List.replicate (w * u.height % u32Size - u.cells.length) false)) ∧
    ((u.cells.length > u.width * hh % u32Size →
        (Universe.set_height u hh).cells =
          List.replicate (u.width * hh % u32Size) false) ∧
      (u.cells.length ≤ u.width * hh % u32Size →
        (Universe.set_height u hh).cells =
          u.cells ++
            List.replicate (u.width * hh % u32Size - u.cells.length) false)) := by
  constructor
  · have hcells : (Universe.set_width u w).cells =
        if u.cells.length > w * u.height % u32Size then
          List.replicate (w * u.height % u32Size) false
        else
          u.cells ++
            List.replicate (w * u.height % u32Size - u.cells.length) false := by
      unfold Universe.set_width
      rw [if_neg hwne]
      exact update_cells_size_cells _
    constructor
    · intro hgt
      rw [hcells, if_pos hgt]
    · intro hle
      rw [hcells, if_neg (by omega)]
  · have hcells : (Universe.set_height u hh).cells =
        if u.cells.length > u.width * hh % u32Size then
          List.replicate (u.width * hh % u32Size) false
        else
          u.cells ++
            List.replicate (u.width * hh % u32Size - u.cells.length) false := by
      unfold Universe.set_height
      rw [if_neg hhne]
      exact update_cells_size_cells _
    constructor
    · intro hgt
      rw [hcells, if_pos hgt]
    · intro hle
      rw [hcells, if_neg (by omega)]

/-- C6 witness: the amended theorem instantiated on a 2 by 1 grid resized
to width 3 and height 2. -/
theorem c6_witness :
    ((⟨2, 1, [true, false], [true, false]⟩ : Universe).width ≠ 3) ∧
    ((⟨2, 1, [true, false], [true, false]⟩ : Universe).height ≠ 2) ∧
    ((([true, false] : List Bool).length > 3 * 1 % u32Size →
        (Universe.set_width ⟨2, 1, [true, false], [true, false]⟩ 3).cells =
          List.replicate (3 * 1 % u32Size) false) ∧
      (([true, false] : List Bool).length ≤ 3 * 1 % u32Size →
        (Universe.set_width ⟨2, 1, [true, false], [true, false]⟩ 3).cells =
          [true, false] ++
            List.replicate (3 * 1 % u32Size - ([true, false] : List Bool).length)
              false)) ∧
    ((([true, false] : List Bool).length > 2 * 2 % u32Size →
        (Universe.set_height ⟨2, 1, [true, false], [true, false]⟩ 2).cells =
          List.replicate (2 * 2 % u32Size) false) ∧
      (([true, false] : List Bool).length ≤ 2 * 2 % u32Size →
        (Universe.set_height ⟨2, 1, [true, false], [true, false]⟩ 2).cells =
          [true, false] ++
            List.replicate (2 * 2 % u32Size - ([true, false] : List Bool).length)
              false)) :=
  ⟨by decide, by decide,
    c6_resize_discards_only_on_shrink ⟨2, 1, [true, false], [true, false]⟩ 3 2
      (by decide) (by decide)⟩

/-- C7 counterexample: on a 6 by 6 grid, toggle_cell(6, 0) fails
(FixedBitSet::toggle panics at index 36), contradicting the claim that
toggle_cell never fails and wraps row and col modulo the dimensions:
get_index computes row * width + column with no modulo by the
dimensions. -/
theorem c7_counterexample :
    Universe.toggle_cell
      ⟨6, 6, List.replicate 36 false, List.replicate 36 false⟩ 6 0 = none := by
  decide

/-- C7 amended: toggle_cell(row, col) addresses the linear index
row * width + col without reducing row or col modulo the dimensions; for
in-range coordinates on a well-formed grid it succeeds, flips exactly that
cell and leaves every other cell, both dimensions and the next_cells buffer
unchanged; an out-of-range coordinate pair instead addresses whatever cell
its raw linear index happens to denote, or fails when that index is out of
bounds. -/
theorem c7_toggle_in_range_flips_exact_index (u : Universe) (row col : Nat)
    (hrow : row < u.height) (hcol : col < u.width)
    (hlen : u.cells.length = u.width * u.height)
    (hrep : u.width * u.height < u32Size) :
    ∃ v, Universe.toggle_cell u row col = some v ∧
      fbsGet v.cells (row * u.width + col) =
        !(fbsGet u.cells (row * u.width + col)) ∧
      (∀ j, j ≠ row * u.width + col → fbsGet v.cells j = fbsGet u.cells j) ∧
      v.width = u.width ∧ v.height = u.height ∧ v.next_cells = u.next_cells := by
  have hgi : rustGetIndex u.width row col = row * u.width + col :=
    rustGetIndex_eq u.width u.height row col hrow hcol hrep
  have hidx : row * u.width + col < u.cells.length := by
    rw [hlen]
    calc row * u.width + col < row * u.width + u.width := by omega
    _ = (row + 1) * u.width := by ring
    _ ≤ u.height * u.width := Nat.mul_le_mul_right _ (by omega)
    _ = u.width * u.height := Nat.mul_comm _ _
  let newCells :=
    u.cells.set (row * u.width + col) (!(fbsGet u.cells (row * u.width + col)))
  refine ⟨{ u with cells := newCells }, ?_, ?_, ?_, rfl, rfl, rfl⟩
  · unfold Universe.toggle_cell fbsToggle
    rw [hgi, if_pos hidx]
    rfl
  · exact fbsGet_set_self _ _ _ hidx
  · intro j hj
    exact fbsGet_set_ne _ _ _ _ (Ne.symm hj)

/-- C7 witness: the amended theorem instantiated at the in-range coordinate
(1, 1) of a 2 by 2 grid. -/
theorem c7_witness :
    ((1 : Nat) < 2) ∧ (([true, false, false, false] : List Bool).length = 2 * 2) ∧
    (2 * 2 < u32Size) ∧
    (∃ v, Universe.toggle_cell ⟨2, 2, [true, false, false, false], []⟩ 1 1 =
        some v ∧
      fbsGet v.cells (1 * 2 + 1) =
        !(fbsGet [true, false, false, false] (1 * 2 + 1)) ∧
      (∀ j, j ≠ 1 * 2 + 1 →
        fbsGet v.cells j = fbsGet [true, false, false, false] j) ∧
      v.width = 2 ∧ v.height = 2 ∧ v.next_cells = []) :=
  ⟨by decide, by decide, by decide,
    c7_toggle_in_range_flips_exact_index ⟨2, 2, [true, false, false, false], []⟩
      1 1 (by decide) (by decide) (by decide) (by decide)⟩

/-- C8 counterexample: setting the dimensions to 65536 by 65536 makes
width*height = 2^32 overflow u32; no error is reported anywhere and the
cells buffer is silently truncated to the wrapped size 2^32 mod 2^32 = 0,
contradicting the claim that an overflowing size is reported as an error
and never silently truncated. -/
theorem c8_counterexample :
    (Universe.set_height (Universe.set_width Universe.new 65536) 65536).width *
      (Universe.set_height (Universe.set_width Universe.new 65536) 65536).height
        = 4294967296 ∧
    (Universe.set_height (Universe.set_width Universe.new 65536) 65536).cells.length
        = 0 := by
  have h1 := set_width_parts Universe.new 65536 (by decide)
  have h2 := set_height_parts (Universe.set_width Universe.new 65536) 65536
    (by rw [h1.2.1]; decide)
  refine ⟨?_, ?_⟩
  · rw [h2.1, h2.2.1, h1.1]
  · rw [h2.2.2.1, h1.1]
    norm_num [u32Size]

/-- C8 amended: construction takes no size parameters and cannot fail; it
always allocates both buffers at exactly width*height = 128*128 cells.
Overflow is never detected: whenever a dimension is changed, the new
width*height is computed in wrapping u32 arithmetic and the cells buffer is
silently resized to the wrapped value. -/
theorem c8_construction_total_resize_wraps :
    (Universe.new.cells.length = Universe.new.width * Universe.new.height ∧
      Universe.new.next_cells.length = Universe.new.width * Universe.new.height) ∧
    (∀ u : Universe, ∀ w : Nat, u.width ≠ w →
      (Universe.set_width u w).cells.length = w * u.height % u32Size) ∧
    (∀ u : Universe, ∀ hh : Nat, u.height ≠ hh →
      (Universe.set_height u hh).cells.length = u.width * hh % u32Size) := by
  refine ⟨⟨?_, ?_⟩, ?_, ?_⟩
  · show (List.replicate (128 * 128) false).length = 128 * 128
    rw [List.length_replicate]
  · show (List.replicate (128 * 128) false).length = 128 * 128
    rw [List.length_replicate]
  · intro u w hwne
    exact (set_width_parts u w hwne).2.2.1
  · intro u hh hhne
    exact (set_height_parts u hh hhne).2.2.1

/-- C8 witness: the resize clause of the amended theorem instantiated at
Universe::new() with set_width(129). -/
theorem c8_witness :
    (Universe.new.width ≠ 129) ∧
    ((Universe.set_width Universe.new 129).cells.length =
      129 * Universe.new.height % u32Size) :=
  ⟨by decide,
    c8_construction_total_resize_wraps.2.1 Universe.new 129 (by decide)⟩

/-- C9: the all-dead grid is a fixed point of tick: on a well-formed grid
(buffers of length width*height, representable in u32) with no live cells,
tick succeeds and yields a grid with no live cells; and clear() followed by
tick() leaves every cell dead. -/
theorem c9_all_dead_is_fixed_point (u : Universe)
    (hc : u.cells.length = u.width * u.height)
    (hn : u.next_cells.length = u.width * u.height)
    (hrep : u.width * u.height < u32Size) :
    ((∀ i, fbsGet u.cells i = false) →
      ∃ v, Universe.tick u = some v ∧ ∀ i, fbsGet v.cells i = false) ∧
    (∃ v, Universe.tick (Universe.clear u) = some v ∧
      ∀ i, fbsGet v.cells i = false) := by
  constructor
  · exact fun hdead => tick_dead u hn hrep hdead
  · refine tick_dead (Universe.clear u) hn hrep ?_
    intro i
    show fbsGet (fbsClear u.cells) i = false
    unfold fbsClear
    exact fbsGet_replicate_false _ _

/-- C9 witness: the theorem instantiated on a 1 by 1 grid (with a stale
live bit in next_cells, which tick overwrites). -/
theorem c9_witness :
    (([false] : List Bool).length = 1 * 1) ∧ (1 * 1 < u32Size) ∧
    (((∀ i, fbsGet ([false] : List Bool) i = false) →
      ∃ v, Universe.tick ⟨1, 1, [false], [true]⟩ = some v ∧
        ∀ i, fbsGet v.cells i = false) ∧
    (∃ v, Universe.tick (Universe.clear ⟨1, 1, [false], [true]⟩) = some v ∧
      ∀ i, fbsGet v.cells i = false)) :=
  ⟨by decide, by decide,
    c9_all_dead_is_fixed_point ⟨1, 1, [false], [true]⟩
      (by decide) (by decide) (by decide)⟩

/-- C10: set_alive_cells is idempotent and monotone: on a well-formed grid,
for every list of in-range coordinates, the call succeeds, calling it again
with the same list returns exactly the same grid, and no cell that was live
before the call becomes dead. -/
theorem c10_set_alive_cells_idempotent_monotone (u : Universe)
    (l : List (Nat × Nat))
    (hlen : u.cells.length = u.width * u.height)
    (hrep : u.width * u.height < u32Size)
    (hcoords : ∀ p ∈ l, p.1 < u.height ∧ p.2 < u.width) :
    ∃ v, Universe.set_alive_cells u l = some v ∧
      Universe.set_alive_cells v l = some v ∧
      ∀ j, fbsGet u.cells j = true → fbsGet v.cells j = true := by
  have hall : ∀ p ∈ l, rustGetIndex u.width p.1 p.2 < u.cells.length := by
    intro p hp
    obtain ⟨h1, h2⟩ := hcoords p hp
    rw [rustGetIndex_eq u.width u.height _ _ h1 h2 hrep, hlen]
    calc p.1 * u.width + p.2 < p.1 * u.width + u.width := by omega
    _ = (p.1 + 1) * u.width := by ring
    _ ≤ u.height * u.width := Nat.mul_le_mul_right _ (by omega)
    _ = u.width * u.height := Nat.mul_comm _ _
  obtain ⟨r, hr, hrlen, hget⟩ := setAliveList_total u.width l u.cells hall
  have hall2 : ∀ p ∈ l, rustGetIndex u.width p.1 p.2 < r.length := by
    rw [hrlen]
    exact hall
  refine ⟨{ u with cells := r }, ?_, ?_, ?_⟩
  · unfold Universe.set_alive_cells
    rw [hr]
  · show Universe.set_alive_cells { u with cells := r } l = _
    unfold Universe.set_alive_cells
    have hfix : setAliveList u.width r l = some r :=
      setAliveList_fixed u.width l r hall2
        (fun p hp => (hget _).mpr (Or.inr ⟨p, hp, rfl⟩))
    rw [hfix]
  · intro j hj
    exact (hget j).mpr (Or.inl hj)

/-- C10 witness: the theorem instantiated on a 2 by 2 all-dead grid with
the coordinate list [(0,1), (1,0)]. -/
theorem c10_witness :
    ((List.replicate 4 false : List Bool).length = 2 * 2) ∧ (2 * 2 < u32Size) ∧
    (∀ p ∈ ([(0, 1), (1, 0)] : List (Nat × Nat)), p.1 < 2 ∧ p.2 < 2) ∧
    (∃ v, Universe.set_alive_cells
        ⟨2, 2, List.replicate 4 false, List.replicate 4 false⟩
        [(0, 1), (1, 0)] = some v ∧
      Universe.set_alive_cells v [(0, 1), (1, 0)] = some v ∧
      ∀ j, fbsGet (List.replicate 4 false) j = true → fbsGet v.cells j = true) :=
  ⟨by decide, by decide, by decide,
    c10_set_alive_cells_idempotent_monotone
      ⟨2, 2, List.replicate 4 false, List.replicate 4 false⟩ [(0, 1), (1, 0)]
      (by decide) (by decide) (by decide)⟩
